import Mathlib

/-!
Verification of the IoT buoy simulation page (`src/iot_buoy_page.py`).

The page has two logical components: a reading generator
(`generate_buoy_reading`) and the surrounding live loop (`run_iot_buoy`)
that appends readings to a session-state telemetry log, derives anomaly
flags, a sensor-network health score and a cloud payload each tick.

Modelling conventions:
* Python floats are modelled as rationals (`ℚ`); Python's `round`
  (half-to-even) is modelled exactly on `ℚ` by `pyRound` / `roundTo`.
* `random.uniform(a, b)` draws are passed in explicitly as a `Draws`
  record; range membership becomes a hypothesis (`Draws.InRange`).
* `pd.Timestamp.now()` is modelled as a strictly increasing `ℕ` clock:
  each generated reading gets a fresh, strictly larger tick value.
* `df.sort_values("time")` is `List.mergeSort` on the time field and
  `groupby("buoy").tail(1)` keeps the last occurrence of each buoy in
  that order (`keepLast`); `.iloc[-1]` is `List.getLast?`.
* Streamlit session state is a record of optional fields; a field is
  `none` when its key is absent from `st.session_state`.
-/

namespace IotBuoy

/-- Python's built-in `round` to an integer on exact rationals:
round-half-to-even (banker's rounding). -/
def pyRound (q : ℚ) : ℤ :=
  let f : ℤ := ⌊q⌋
  let r : ℚ := q - f
  if r < 1/2 then f
  else if 1/2 < r then f + 1
  else if Even f then f else f + 1

/-- Python's `round(q, n)`: round to `n` decimal places. -/
def roundTo (n : ℕ) (q : ℚ) : ℚ :=
  (pyRound (q * 10 ^ n) : ℚ) / 10 ^ n

/-- One telemetry sample, the dict returned by `generate_buoy_reading`. -/
structure Reading where
  time : ℕ
  buoy : String
  lat : ℚ
  lon : ℚ
  temp : ℚ
  depth : ℚ
  sound : ℚ
  wave : ℚ
  whale_prob : ℚ
  deriving Repr, DecidableEq

/-- The random draws consumed by one call of `generate_buoy_reading`:
the two position jitters, the four measurements and the probability
jitter, in the order the Python code draws them. -/
structure Draws where
  dlat : ℚ
  dlon : ℚ
  temp : ℚ
  depth : ℚ
  sound : ℚ
  wave : ℚ
  jitter : ℚ
  deriving Repr, DecidableEq

/-- Each draw lies in the range given to `random.uniform`. -/
def Draws.InRange (d : Draws) : Prop :=
  -2 ≤ d.dlat ∧ d.dlat ≤ 2 ∧
  -2 ≤ d.dlon ∧ d.dlon ≤ 2 ∧
  5 ≤ d.temp ∧ d.temp ≤ 18 ∧
  50 ≤ d.depth ∧ d.depth ≤ 300 ∧
  20 ≤ d.sound ∧ d.sound ≤ 120 ∧
  1/2 ≤ d.wave ∧ d.wave ≤ 7/2 ∧
  0 ≤ d.jitter ∧ d.jitter ≤ 1/5

instance (d : Draws) : Decidable d.InRange := by
  unfold Draws.InRange; infer_instance

/-- The deterministic rule part of the scorer: starting from 0, add 0.4
if `sound > 85`, 0.3 if `8 < temp < 16`, 0.2 if `depth > 80`, 0.1 if
`wave < 2`. -/
def whaleProbRules (sound temp depth wave : ℚ) : ℚ :=
  let p : ℚ := 0
  let p := if sound > 85 then p + 0.4 else p
  let p := if 8 < temp ∧ temp < 16 then p + 0.3 else p
  let p := if depth > 80 then p + 0.2 else p
  let p := if wave < 2 then p + 0.1 else p
  p

/-- `generate_buoy_reading(buoy_id)`, with the timestamp and the random
draws passed explicitly. Mirrors the Python body: position is base plus
jitter (not rounded in the returned dict), the four measurements are
drawn then rounded (`temp` and `wave` to 2 decimals, `depth` and
`sound` to 1), and `whale_prob` is `min(1.0, rules + jitter)` rounded
to 2 decimals. -/
def generate_buoy_reading (buoy_id : ℕ) (t : ℕ) (d : Draws) : Reading :=
  let base_lat : ℚ := 34.0
  let base_lon : ℚ := -120.0
  let lat := base_lat + d.dlat
  let lon := base_lon + d.dlon
  let temp := d.temp
  let depth := d.depth
  let sound := d.sound
  let wave := d.wave
  let whale_prob := whaleProbRules sound temp depth wave
  let whale_prob := min 1.0 (whale_prob + d.jitter)
  { time := t
    buoy := "B-" ++ toString buoy_id
    lat := lat
    lon := lon
    temp := roundTo 2 temp
    depth := roundTo 1 depth
    sound := roundTo 1 sound
    wave := roundTo 2 wave
    whale_prob := roundTo 2 whale_prob }

/-- The advanced-layer anomaly predicate on one row:
`sound > 100 OR temp < 6 OR wave > 3`. -/
def anomalyFlag (r : Reading) : Bool :=
  decide (r.sound > 100) || decide (r.temp < 6) || decide (r.wave > 3)

/-- Comparison used by `df.sort_values("time")`. -/
def timeLe (a b : Reading) : Bool :=
  decide (a.time ≤ b.time)

/-- `df.sort_values("time")`. -/
def sortByTime (l : List Reading) : List Reading :=
  l.mergeSort timeLe

/-- `groupby("buoy").tail(1)` on a frame in a given row order: keep each
row that is the last occurrence of its buoy, preserving row order. -/
def keepLast : List Reading → List Reading
  | [] => []
  | r :: rest =>
      if rest.any (fun s => s.buoy = r.buoy) then keepLast rest
      else r :: keepLast rest

/-- `df.sort_values("time").groupby("buoy").tail(1)`: the latest reading
per buoy. -/
def latestPerBuoy (log : List Reading) : List Reading :=
  keepLast (sortByTime log)

/-- `anomaly_flags.mean()` over a view: fraction of rows flagged. -/
def anomalyMean (view : List Reading) : ℚ :=
  ((view.countP (fun r => anomalyFlag r) : ℕ) : ℚ) / (view.length : ℚ)

/-- `health_score = 100 - anomaly_flags.mean() * 100`. -/
def healthScore (view : List Reading) : ℚ :=
  100 - anomalyMean view * 100

/-- The `cloud_msg` JSON dict built from `latest_row`. -/
structure CloudMsg where
  device_id : String
  timestamp : ℕ
  lat : ℚ
  lon : ℚ
  temp : ℚ
  depth : ℚ
  sound : ℚ
  wave : ℚ
  whale_probability : ℚ
  alert : Bool
  deriving Repr, DecidableEq

/-- Build the cloud payload dict from one row; `alert` is
`bool(whale_prob > 0.7)`. -/
def mkCloudMsg (r : Reading) : CloudMsg :=
  { device_id := r.buoy
    timestamp := r.time
    lat := r.lat
    lon := r.lon
    temp := r.temp
    depth := r.depth
    sound := r.sound
    wave := r.wave
    whale_probability := r.whale_prob
    alert := decide (r.whale_prob > 0.7) }

/-- `latest_row = latest.iloc[-1]` followed by the payload construction:
the payload of a tick is built from the last row of the
latest-per-buoy view of the accumulated log (`none` when the log is
empty, where `.iloc[-1]` would raise). -/
def cloudPayload (log : List Reading) : Option CloudMsg :=
  ((latestPerBuoy log).getLast?).map mkCloudMsg

/-- The in-memory state the live loop works on: the session telemetry
log, the timestamp clock, and the payloads emitted so far. -/
structure SimState where
  buoy_data : List Reading
  clock : ℕ
  payloads : List CloudMsg
  deriving Repr

/-- `new_rows = [generate_buoy_reading(i+1) for i in range(num_buoys)]`,
with consecutive clock values as timestamps. -/
def tickRows (num_buoys : ℕ) (clock : ℕ) (dr : ℕ → Draws) : List Reading :=
  (List.range num_buoys).map (fun i => generate_buoy_reading (i + 1) (clock + i) (dr i))

/-- One loop iteration: generate one row per buoy, extend the log, and
emit the cloud payload for `latest.iloc[-1]` of the new log. -/
def doTick (num_buoys : ℕ) (dr : ℕ → Draws) (s : SimState) : SimState :=
  let new_rows := tickRows num_buoys s.clock dr
  let log := s.buoy_data ++ new_rows
  { buoy_data := log
    clock := s.clock + num_buoys
    payloads := s.payloads ++ (cloudPayload log).toList }

/-- The `for step in range(50)` loop body with the trailing
`if not st.session_state.running: break`: run one tick, then check the
stop flag; recurse on the remaining fuel. `stop step` is the value of
`not st.session_state.running` observed after iteration `step`. -/
def runAux (num_buoys : ℕ) (dr : ℕ → ℕ → Draws) (stop : ℕ → Bool) :
    ℕ → ℕ → SimState → SimState
  | _, 0, s => s
  | step, fuel + 1, s =>
      let s_next := doTick num_buoys (dr step) s
      if stop step then s_next
      else runAux num_buoys dr stop (step + 1) fuel s_next

/-- Number of iterations the loop completes: each iteration runs fully,
then the stop flag decides whether another one starts. -/
def ticksRun (stop : ℕ → Bool) : ℕ → ℕ → ℕ
  | _, 0 => 0
  | step, fuel + 1 => if stop step then 1 else 1 + ticksRun stop (step + 1) fuel

/-- The live loop of `run_iot_buoy`: at most 50 iterations. -/
def run_iot_buoy_loop (num_buoys : ℕ) (dr : ℕ → ℕ → Draws) (stop : ℕ → Bool)
    (s : SimState) : SimState :=
  runAux num_buoys dr stop 0 50 s

/-- The page's Streamlit session state: `none` models a key that is
absent from `st.session_state`. -/
structure Session where
  buoy_data : Option (List Reading)
  running : Option Bool
  deriving Repr

/-- The session-state init block: each key is set to its default only
when absent. -/
def initSessionState (s : Session) : Session :=
  let bd := match s.buoy_data with
    | none => some []
    | some l => some l
  let rn := match s.running with
    | none => some false
    | some b => some b
  { buoy_data := bd, running := rn }

/-- The Start button handler: `st.session_state.running = True`. -/
def pressStart (s : Session) : Session :=
  { s with running := some true }

/-- The Stop button handler: `st.session_state.running = False`. -/
def pressStop (s : Session) : Session :=
  { s with running := some false }

-- ===================================================================
-- Theorems
-- ===================================================================

-- Basic bounds for `pyRound` / `roundTo`.

theorem pyRound_ge (A : ℤ) (q : ℚ) (h : (A : ℚ) ≤ q) : A ≤ pyRound q := by
  unfold pyRound
  have hfl : A ≤ ⌊q⌋ := Int.le_floor.mpr h
  dsimp only
  split
  · exact hfl
  · split
    · omega
    · split <;> omega

theorem pyRound_le (B : ℤ) (q : ℚ) (h : q ≤ (B : ℚ)) : pyRound q ≤ B := by
  unfold pyRound
  have hfl : ⌊q⌋ ≤ B := by
    have := Int.floor_le_floor h
    simpa using this
  dsimp only
  rcases eq_or_lt_of_le h with heq | hlt
  · have hq : ⌊q⌋ = B := by rw [heq]; exact Int.floor_intCast B
    have hr : q - (⌊q⌋ : ℚ) = 0 := by rw [hq, ← heq]; ring
    rw [hr]
    simpa using hfl
  · have hfl' : ⌊q⌋ + 1 ≤ B := by
      have : ⌊q⌋ < B := Int.floor_lt.mpr hlt
      omega
    split
    · exact hfl
    · split
      · exact hfl'
      · split
        · exact hfl
        · exact hfl'

theorem roundTo_ge (n : ℕ) (A : ℤ) (q : ℚ) (h : (A : ℚ) ≤ q * 10 ^ n) :
    (A : ℚ) / 10 ^ n ≤ roundTo n q := by
  unfold roundTo
  have h1 : (A : ℚ) ≤ (pyRound (q * 10 ^ n) : ℚ) := by
    exact_mod_cast pyRound_ge A _ h
  gcongr

theorem roundTo_le (n : ℕ) (B : ℤ) (q : ℚ) (h : q * 10 ^ n ≤ (B : ℚ)) :
    roundTo n q ≤ (B : ℚ) / 10 ^ n := by
  unfold roundTo
  have h1 : ((pyRound (q * 10 ^ n) : ℤ) : ℚ) ≤ (B : ℚ) := by
    exact_mod_cast pyRound_le B _ h
  gcongr

theorem roundTo_bounds (n : ℕ) (A B : ℤ) (q : ℚ)
    (h1 : (A : ℚ) ≤ q * 10 ^ n) (h2 : q * 10 ^ n ≤ (B : ℚ)) :
    (A : ℚ) / 10 ^ n ≤ roundTo n q ∧ roundTo n q ≤ (B : ℚ) / 10 ^ n :=
  ⟨roundTo_ge n A q h1, roundTo_le n B q h2⟩

theorem pyRound_eq_floor (q : ℚ) (h : q - (⌊q⌋ : ℚ) < 1/2) : pyRound q = ⌊q⌋ := by
  unfold pyRound
  rw [if_pos h]

theorem roundTo_eval_down (n : ℕ) (q : ℚ) (f : ℤ)
    (h1 : (f : ℚ) ≤ q * 10 ^ n) (h2 : q * 10 ^ n < (f : ℚ) + 1/2) :
    roundTo n q = (f : ℚ) / 10 ^ n := by
  have hfl : ⌊q * 10 ^ n⌋ = f := by
    rw [Int.floor_eq_iff]
    exact ⟨h1, by push_cast; linarith⟩
  unfold roundTo
  rw [pyRound_eq_floor _ (by rw [hfl]; linarith), hfl]

theorem roundTo_eval_up (n : ℕ) (q : ℚ) (f : ℤ)
    (h1 : (f : ℚ) + 1/2 < q * 10 ^ n) (h2 : q * 10 ^ n < (f : ℚ) + 1) :
    roundTo n q = ((f : ℚ) + 1) / 10 ^ n := by
  have hfl : ⌊q * 10 ^ n⌋ = f := by
    rw [Int.floor_eq_iff]
    exact ⟨by linarith, by push_cast; linarith⟩
  unfold roundTo
  have hne : ¬ (q * 10 ^ n - (⌊q * 10 ^ n⌋ : ℚ) < 1/2) := by
    rw [hfl]; push_neg; linarith
  have hgt : 1/2 < q * 10 ^ n - (⌊q * 10 ^ n⌋ : ℚ) := by
    rw [hfl]; linarith
  unfold pyRound
  rw [if_neg hne, if_pos hgt, hfl]
  push_cast
  ring

-- Rule-sum bounds.

theorem whaleProbRules_nonneg (sound temp depth wave : ℚ) :
    0 ≤ whaleProbRules sound temp depth wave := by
  unfold whaleProbRules
  dsimp only
  split <;> split <;> split <;> split <;> norm_num

theorem whaleProbRules_le_one (sound temp depth wave : ℚ) :
    whaleProbRules sound temp depth wave ≤ 1 := by
  unfold whaleProbRules
  dsimp only
  split <;> split <;> split <;> split <;> norm_num

-- Field-level unfolding lemmas for the generator.

theorem generate_whale_prob (b t : ℕ) (d : Draws) :
    (generate_buoy_reading b t d).whale_prob =
      roundTo 2 (min 1 (whaleProbRules d.sound d.temp d.depth d.wave + d.jitter)) := by
  simp [generate_buoy_reading]
  norm_num

theorem generate_lat (b t : ℕ) (d : Draws) :
    (generate_buoy_reading b t d).lat = 34 + d.dlat := by
  simp [generate_buoy_reading]
  norm_num

theorem generate_lon (b t : ℕ) (d : Draws) :
    (generate_buoy_reading b t d).lon = -120 + d.dlon := by
  simp [generate_buoy_reading]
  norm_num

theorem generate_temp (b t : ℕ) (d : Draws) :
    (generate_buoy_reading b t d).temp = roundTo 2 d.temp := rfl

theorem generate_depth (b t : ℕ) (d : Draws) :
    (generate_buoy_reading b t d).depth = roundTo 1 d.depth := rfl

theorem generate_sound (b t : ℕ) (d : Draws) :
    (generate_buoy_reading b t d).sound = roundTo 1 d.sound := rfl

theorem generate_wave (b t : ℕ) (d : Draws) :
    (generate_buoy_reading b t d).wave = roundTo 2 d.wave := rfl

theorem generate_time (b t : ℕ) (d : Draws) :
    (generate_buoy_reading b t d).time = t := rfl

theorem generate_buoy_name (b t : ℕ) (d : Draws) :
    (generate_buoy_reading b t d).buoy = "B-" ++ toString b := rfl

/-- C1: for every generated Reading, the stored `whale_prob` lies in
[0, 1]: the rule sum is nonnegative, the scorer clamps
`rules + jitter` with `min 1.0`, and rounding to 2 decimals preserves
the bound. -/
theorem whale_prob_in_unit_interval (b t : ℕ) (d : Draws)
    (hj0 : 0 ≤ d.jitter) (hj1 : d.jitter ≤ 1/5) :
    0 ≤ whaleProbRules d.sound d.temp d.depth d.wave ∧
    0 ≤ (generate_buoy_reading b t d).whale_prob ∧
    (generate_buoy_reading b t d).whale_prob ≤ 1 := by
  have hr0 := whaleProbRules_nonneg d.sound d.temp d.depth d.wave
  refine ⟨hr0, ?_, ?_⟩
  · rw [generate_whale_prob]
    have h0 : (0 : ℚ) ≤ min 1 (whaleProbRules d.sound d.temp d.depth d.wave + d.jitter) :=
      le_min (by norm_num) (by linarith)
    have h2 : ((0 : ℤ) : ℚ) ≤
        min 1 (whaleProbRules d.sound d.temp d.depth d.wave + d.jitter) * 10 ^ 2 := by
      push_cast
      nlinarith [h0]
    have h3 := roundTo_ge 2 0 _ h2
    simpa using h3
  · rw [generate_whale_prob]
    have h1 : min 1 (whaleProbRules d.sound d.temp d.depth d.wave + d.jitter) ≤ 1 :=
      min_le_left _ _
    have h2 : min 1 (whaleProbRules d.sound d.temp d.depth d.wave + d.jitter) * 10 ^ 2 ≤
        ((100 : ℤ) : ℚ) := by
      push_cast
      nlinarith [h1]
    have h3 := roundTo_le 2 100 _ h2
    norm_num at h3
    exact h3

/-- Witness for C1 at a concrete draw record. -/
theorem whale_prob_in_unit_interval_witness :
    0 ≤ whaleProbRules 90 10 100 1 ∧
    0 ≤ (generate_buoy_reading 1 0 ⟨1, 1, 10, 100, 90, 1, 1/10⟩).whale_prob ∧
    (generate_buoy_reading 1 0 ⟨1, 1, 10, 100, 90, 1, 1/10⟩).whale_prob ≤ 1 :=
  whale_prob_in_unit_interval 1 0 ⟨1, 1, 10, 100, 90, 1, 1/10⟩ (by norm_num) (by norm_num)

/-- C6: every measurement of a generated Reading lies within its
declared generation range; the stored (rounded) values stay inside the
ranges of the raw uniform draws. -/
theorem generated_fields_in_range (b t : ℕ) (d : Draws) (h : d.InRange) :
    32 ≤ (generate_buoy_reading b t d).lat ∧ (generate_buoy_reading b t d).lat ≤ 36 ∧
    -122 ≤ (generate_buoy_reading b t d).lon ∧ (generate_buoy_reading b t d).lon ≤ -118 ∧
    5 ≤ (generate_buoy_reading b t d).temp ∧ (generate_buoy_reading b t d).temp ≤ 18 ∧
    50 ≤ (generate_buoy_reading b t d).depth ∧ (generate_buoy_reading b t d).depth ≤ 300 ∧
    20 ≤ (generate_buoy_reading b t d).sound ∧ (generate_buoy_reading b t d).sound ≤ 120 ∧
    1/2 ≤ (generate_buoy_reading b t d).wave ∧ (generate_buoy_reading b t d).wave ≤ 7/2 := by
  obtain ⟨h1, h2, h3, h4, h5, h6, h7, h8, h9, h10, h11, h12, _, _⟩ := h
  rw [generate_lat, generate_lon, generate_temp, generate_depth, generate_sound,
    generate_wave]
  have htemp := roundTo_bounds 2 500 1800 d.temp
    (by push_cast; linarith) (by push_cast; linarith)
  have hdepth := roundTo_bounds 1 500 3000 d.depth
    (by push_cast; linarith) (by push_cast; linarith)
  have hsound := roundTo_bounds 1 200 1200 d.sound
    (by push_cast; linarith) (by push_cast; linarith)
  have hwave := roundTo_bounds 2 50 350 d.wave
    (by push_cast; linarith) (by push_cast; linarith)
  norm_num at htemp hdepth hsound hwave
  refine ⟨by linarith, by linarith, by linarith, by linarith,
    htemp.1, htemp.2, hdepth.1, hdepth.2, hsound.1, hsound.2, hwave.1, hwave.2⟩

/-- Witness for C6 at a concrete in-range draw record. -/
theorem generated_fields_in_range_witness :
    Draws.InRange ⟨1, -1, 10, 100, 90, 1, 1/10⟩ ∧
    32 ≤ (generate_buoy_reading 2 5 ⟨1, -1, 10, 100, 90, 1, 1/10⟩).lat := by
  have hin : Draws.InRange ⟨1, -1, 10, 100, 90, 1, 1/10⟩ := by
    norm_num [Draws.InRange]
  exact ⟨hin, (generated_fields_in_range 2 5 ⟨1, -1, 10, 100, 90, 1, 1/10⟩ hin).1⟩

/-- C3: the anomaly flag is true exactly when `sound > 100` or
`temp < 6` or `wave > 3`, and it is a pure function of the stored
triple (sound, temp, wave): two readings agreeing on the triple get
the same flag. -/
theorem anomalyFlag_pure_threshold :
    (∀ r : Reading, anomalyFlag r = true ↔ (100 < r.sound ∨ r.temp < 6 ∨ 3 < r.wave)) ∧
    (∀ r₁ r₂ : Reading, r₁.sound = r₂.sound → r₁.temp = r₂.temp → r₁.wave = r₂.wave →
      anomalyFlag r₁ = anomalyFlag r₂) := by
  constructor
  · intro r
    simp [anomalyFlag, or_assoc]
  · intro r₁ r₂ e1 e2 e3
    simp [anomalyFlag, e1, e2, e3]

/-- Witness for C3: an anomalous reading, and two readings that agree
on (sound, temp, wave) but differ elsewhere get the same flag. -/
theorem anomalyFlag_pure_threshold_witness :
    anomalyFlag ⟨0, "B-1", 34, -120, 10, 100, 101, 1, 0⟩ = true ∧
    anomalyFlag ⟨0, "B-1", 34, -120, 10, 100, 101, 1, 0⟩ =
      anomalyFlag ⟨7, "B-2", 35, -119, 10, 250, 101, 1, 9/10⟩ :=
  ⟨(anomalyFlag_pure_threshold.1 _).mpr (Or.inl (by norm_num)),
   anomalyFlag_pure_threshold.2 _ _ rfl rfl rfl⟩

/-- C4: with draws sound = 90, temp = 10, depth = 100, wave = 1 all
four rules fire, the rule sum is exactly 1, and the clamped probability
(and the stored rounded value) is exactly 1 for any jitter in [0, 0.2]. -/
theorem scenario_all_rules_fire (b t : ℕ) (d : Draws)
    (hs : d.sound = 90) (ht : d.temp = 10) (hd : d.depth = 100) (hw : d.wave = 1)
    (hj0 : 0 ≤ d.jitter) (hj1 : d.jitter ≤ 1/5) :
    (85 < d.sound ∧ (8 < d.temp ∧ d.temp < 16) ∧ 80 < d.depth ∧ d.wave < 2) ∧
    whaleProbRules d.sound d.temp d.depth d.wave = 1 ∧
    min 1 (whaleProbRules d.sound d.temp d.depth d.wave + d.jitter) = 1 ∧
    (generate_buoy_reading b t d).whale_prob = 1 := by
  have hrules : whaleProbRules d.sound d.temp d.depth d.wave = 1 := by
    rw [hs, ht, hd, hw]
    norm_num [whaleProbRules]
  have hmin : min 1 (whaleProbRules d.sound d.temp d.depth d.wave + d.jitter) = 1 := by
    rw [hrules]
    exact min_eq_left (by linarith)
  refine ⟨⟨by rw [hs]; norm_num, ⟨by rw [ht]; norm_num, by rw [ht]; norm_num⟩,
    by rw [hd]; norm_num, by rw [hw]; norm_num⟩, hrules, hmin, ?_⟩
  rw [generate_whale_prob, hmin]
  have := roundTo_eval_down 2 1 100 (by norm_num) (by norm_num)
  rw [this]
  norm_num

/-- Witness for C4 at a concrete draw record. -/
theorem scenario_all_rules_fire_witness :
    whaleProbRules 90 10 100 1 = 1 ∧
    (generate_buoy_reading 1 0 ⟨0, 0, 10, 100, 90, 1, 3/20⟩).whale_prob = 1 := by
  have h := scenario_all_rules_fire 1 0 ⟨0, 0, 10, 100, 90, 1, 3/20⟩
    rfl rfl rfl rfl (by norm_num) (by norm_num)
  exact ⟨h.2.1, h.2.2.2⟩

/-- C5 counterexample: at the draw record below, the stored latitude is
not the 2-decimal rounding of the raw latitude (the code stores `lat`
unrounded), and the stored sound level is not the 2-decimal rounding of
the raw draw (the code rounds `sound` to 1 decimal). -/
theorem rounding_spec_counterexample :
    Draws.InRange ⟨1/1000, 0, 10, 100, 2057/100, 1, 0⟩ ∧
    ¬ ((generate_buoy_reading 1 0 ⟨1/1000, 0, 10, 100, 2057/100, 1, 0⟩).lat =
        roundTo 2 (34 + (1/1000 : ℚ))) ∧
    ¬ ((generate_buoy_reading 1 0 ⟨1/1000, 0, 10, 100, 2057/100, 1, 0⟩).sound =
        roundTo 2 ((2057/100 : ℚ))) := by
  refine ⟨by norm_num [Draws.InRange], ?_, ?_⟩
  · rw [generate_lat]
    rw [roundTo_eval_down 2 (34 + 1/1000) 3400 (by norm_num) (by norm_num)]
    norm_num
  · rw [generate_sound]
    rw [roundTo_eval_up 1 (2057/100) 205 (by norm_num) (by norm_num),
        roundTo_eval_down 2 (2057/100) 2057 (by norm_num) (by norm_num)]
    norm_num

/-- C5 (amended): the generator rounds `temp` and `wave` (and
`whale_prob`) to 2 decimals and `depth` and `sound` to 1 decimal, while
`lat` and `lon` are stored unrounded as base plus jitter. -/
theorem rounding_per_field (b t : ℕ) (d : Draws) :
    (generate_buoy_reading b t d).temp = roundTo 2 d.temp ∧
    (generate_buoy_reading b t d).depth = roundTo 1 d.depth ∧
    (generate_buoy_reading b t d).sound = roundTo 1 d.sound ∧
    (generate_buoy_reading b t d).wave = roundTo 2 d.wave ∧
    (generate_buoy_reading b t d).whale_prob =
      roundTo 2 (min 1 (whaleProbRules d.sound d.temp d.depth d.wave + d.jitter)) ∧
    (generate_buoy_reading b t d).lat = 34 + d.dlat ∧
    (generate_buoy_reading b t d).lon = -120 + d.dlon :=
  ⟨rfl, rfl, rfl, rfl, generate_whale_prob b t d, generate_lat b t d, generate_lon b t d⟩

-- Properties of `keepLast` (`groupby("buoy").tail(1)` in row order).

theorem keepLast_subset (l : List Reading) : ∀ r ∈ keepLast l, r ∈ l := by
  induction l with
  | nil => simp [keepLast]
  | cons a rest ih =>
      intro r hr
      unfold keepLast at hr
      split at hr
      · exact List.mem_cons_of_mem a (ih r hr)
      · rcases List.mem_cons.mp hr with h | h
        · exact h ▸ List.mem_cons_self a rest
        · exact List.mem_cons_of_mem a (ih r h)

theorem keepLast_ne_nil (l : List Reading) (h : l ≠ []) : keepLast l ≠ [] := by
  induction l with
  | nil => exact absurd rfl h
  | cons a rest ih =>
      unfold keepLast
      split
      · rename_i hany
        have : ∃ s, s ∈ rest := by
          obtain ⟨s, hs, _⟩ := List.any_eq_true.mp hany
          exact ⟨s, hs⟩
        obtain ⟨s, hs⟩ := this
        exact ih (List.ne_nil_of_mem hs)
      · simp

theorem getLast?_cons_of_ne_nil (a : Reading) (l : List Reading) (h : l ≠ []) :
    (a :: l).getLast? = l.getLast? := by
  cases l with
  | nil => exact absurd rfl h
  | cons b t => exact List.getLast?_cons_cons

theorem keepLast_getLast? (l : List Reading) :
    (keepLast l).getLast? = l.getLast? := by
  induction l with
  | nil => rfl
  | cons a rest ih =>
      unfold keepLast
      split
      · rename_i hany
        obtain ⟨s, hs, _⟩ := List.any_eq_true.mp hany
        rw [ih, getLast?_cons_of_ne_nil a rest (List.ne_nil_of_mem hs)]
      · cases rest with
        | nil => simp [keepLast]
        | cons b t =>
            have hne : keepLast (b :: t) ≠ [] := keepLast_ne_nil _ (by simp)
            rw [getLast?_cons_of_ne_nil a (keepLast (b :: t)) hne, ih,
              getLast?_cons_of_ne_nil a (b :: t) (by simp)]

theorem keepLast_buoy_nodup (l : List Reading) :
    ((keepLast l).map Reading.buoy).Nodup := by
  induction l with
  | nil => simp [keepLast]
  | cons a rest ih =>
      unfold keepLast
      split
      · exact ih
      · rename_i hany
        have hnot : ∀ s ∈ rest, s.buoy ≠ a.buoy := by
          intro s hs hc
          exact hany (List.any_eq_true.mpr ⟨s, hs, by simp [hc]⟩)
        simp only [List.map_cons, List.nodup_cons]
        refine ⟨?_, ih⟩
        intro hmem
        obtain ⟨r, hr, hrb⟩ := List.mem_map.mp hmem
        exact hnot r (keepLast_subset rest r hr) hrb

theorem keepLast_mem_buoy (l : List Reading) (b : String) :
    b ∈ l.map Reading.buoy ↔ b ∈ (keepLast l).map Reading.buoy := by
  induction l with
  | nil => simp [keepLast]
  | cons a rest ih =>
      unfold keepLast
      split
      · rename_i hany
        obtain ⟨s, hs, hsb⟩ := List.any_eq_true.mp hany
        have hsb' : s.buoy = a.buoy := by simpa using hsb
        simp only [List.map_cons, List.mem_cons]
        constructor
        · intro h
          rcases h with h | h
          · exact ih.mp (List.mem_map.mpr ⟨s, hs, by rw [hsb', h]⟩)
          · exact ih.mp h
        · intro h
          exact Or.inr (ih.mpr h)
      · simp only [List.map_cons, List.mem_cons]
        constructor
        · intro h
          rcases h with h | h
          · exact Or.inl h
          · exact Or.inr (ih.mp h)
        · intro h
          rcases h with h | h
          · exact Or.inl h
          · exact Or.inr (ih.mpr h)

theorem keepLast_time_max (l : List Reading)
    (hp : List.Pairwise (fun a b : Reading => a.time ≤ b.time) l) :
    ∀ r ∈ keepLast l, ∀ s ∈ l, s.buoy = r.buoy → s.time ≤ r.time := by
  induction l with
  | nil => simp [keepLast]
  | cons a rest ih =>
      obtain ⟨ha, hp'⟩ := List.pairwise_cons.mp hp
      intro r hr s hsmem hsb
      unfold keepLast at hr
      split at hr
      · rcases List.mem_cons.mp hsmem with rfl | hs
        · exact ha r (keepLast_subset rest r hr)
        · exact ih hp' r hr s hs hsb
      · rename_i hany
        rcases List.mem_cons.mp hr with rfl | hr'
        · rcases List.mem_cons.mp hsmem with rfl | hs
          · exact le_refl _
          · exact absurd (List.any_eq_true.mpr ⟨s, hs, by simpa using hsb⟩) hany
        · rcases List.mem_cons.mp hsmem with rfl | hs
          · exact ha r (keepLast_subset rest r hr')
          · exact ih hp' r hr' s hs hsb

-- Properties of `sortByTime` (`df.sort_values("time")`).

theorem sortByTime_perm (l : List Reading) : List.Perm (sortByTime l) l :=
  List.mergeSort_perm l timeLe

theorem sortByTime_pairwise (l : List Reading) :
    List.Pairwise (fun a b : Reading => a.time ≤ b.time) (sortByTime l) := by
  have htrans : ∀ (a b c : Reading), timeLe a b → timeLe b c → timeLe a c := by
    intro a b c hab hbc
    simp only [timeLe, decide_eq_true_eq] at *
    omega
  have htotal : ∀ (a b : Reading), timeLe a b || timeLe b a := by
    intro a b
    simp only [timeLe, Bool.or_eq_true, decide_eq_true_eq]
    omega
  have h := List.sorted_mergeSort htrans htotal l
  refine h.imp ?_
  intro a b hab
  simpa [timeLe] using hab

theorem pairwise_time_le_getLast (l : List Reading)
    (hp : List.Pairwise (fun a b : Reading => a.time ≤ b.time) l)
    (x : Reading) (hx : l.getLast? = some x) :
    ∀ a ∈ l, a.time ≤ x.time := by
  induction l with
  | nil => simp at hx
  | cons b t ih =>
      obtain ⟨hb, hp'⟩ := List.pairwise_cons.mp hp
      cases t with
      | nil =>
          simp only [List.getLast?_singleton, Option.some.injEq] at hx
          intro a ha
          simp only [List.mem_singleton] at ha
          rw [ha, hx]
      | cons c t' =>
          rw [List.getLast?_cons_cons] at hx
          intro a ha
          rcases List.mem_cons.mp ha with rfl | ha'
          · have hxmem : x ∈ c :: t' := List.mem_of_getLast?_eq_some hx
            exact hb x hxmem
          · exact ih hp' hx a ha'

theorem sortByTime_getLast_strict_max (l₁ : List Reading) (x : Reading)
    (hmax : ∀ y ∈ l₁, y.time < x.time) :
    (sortByTime (l₁ ++ [x])).getLast? = some x := by
  have hperm := sortByTime_perm (l₁ ++ [x])
  have hx : x ∈ sortByTime (l₁ ++ [x]) := hperm.mem_iff.mpr (by simp)
  have hne : sortByTime (l₁ ++ [x]) ≠ [] := List.ne_nil_of_mem hx
  obtain ⟨z, hz⟩ : ∃ z, (sortByTime (l₁ ++ [x])).getLast? = some z := by
    cases hL : sortByTime (l₁ ++ [x]) with
    | nil => exact absurd hL hne
    | cons b t => simp [List.getLast?]
  have hxz : x.time ≤ z.time :=
    pairwise_time_le_getLast _ (sortByTime_pairwise _) z hz x hx
  have hzmem : z ∈ l₁ ++ [x] := hperm.mem_iff.mp (List.mem_of_getLast?_eq_some hz)
  rcases List.mem_append.mp hzmem with h1 | h2
  · exact absurd hxz (not_le.mpr (hmax z h1))
  · simp only [List.mem_singleton] at h2
    rw [hz, h2]

/-- C2: the sensor-network-health metric is computed over the
latest-per-buoy view: that view has exactly one row per buoy id
(`Nodup` on buoys, same buoy set as the log), each of its rows is a log
row of maximal timestamp for its buoy, and the score equals
`100 - (K/N)*100` with `N` the view's length and `K` its anomalous
row count. -/
theorem sensor_network_health (log : List Reading) :
    ((latestPerBuoy log).map Reading.buoy).Nodup ∧
    (∀ b, b ∈ log.map Reading.buoy ↔ b ∈ (latestPerBuoy log).map Reading.buoy) ∧
    (∀ r ∈ latestPerBuoy log, r ∈ log ∧ ∀ s ∈ log, s.buoy = r.buoy → s.time ≤ r.time) ∧
    healthScore (latestPerBuoy log) =
      100 - (((latestPerBuoy log).countP (fun r => anomalyFlag r) : ℚ) /
        ((latestPerBuoy log).length : ℚ)) * 100 := by
  refine ⟨keepLast_buoy_nodup _, ?_, ?_, ?_⟩
  · intro b
    unfold latestPerBuoy
    rw [← keepLast_mem_buoy]
    exact (((sortByTime_perm log).map Reading.buoy).mem_iff).symm
  · intro r hr
    have hr' : r ∈ sortByTime log := keepLast_subset _ r hr
    refine ⟨(sortByTime_perm log).mem_iff.mp hr', ?_⟩
    intro s hs hsb
    exact keepLast_time_max (sortByTime log) (sortByTime_pairwise log) r hr s
      ((sortByTime_perm log).mem_iff.mpr hs) hsb
  · simp [healthScore, anomalyMean]

/-- Witness for C2 at a concrete one-row log. -/
theorem sensor_network_health_witness :
    ((latestPerBuoy [⟨1, "B-1", 34, -120, 10, 100, 101, 1, 0⟩]).map Reading.buoy).Nodup ∧
    healthScore (latestPerBuoy [⟨1, "B-1", 34, -120, 10, 100, 101, 1, 0⟩]) =
      100 - (((latestPerBuoy [⟨1, "B-1", 34, -120, 10, 100, 101, 1, 0⟩]).countP
          (fun r => anomalyFlag r) : ℚ) /
        ((latestPerBuoy [⟨1, "B-1", 34, -120, 10, 100, 101, 1, 0⟩]).length : ℚ)) * 100 :=
  ⟨(sensor_network_health _).1, (sensor_network_health _).2.2.2⟩

-- The live loop: lemmas about one tick and about the bounded loop.

theorem tickRows_length (B clock : ℕ) (dr : ℕ → Draws) :
    (tickRows B clock dr).length = B := by
  simp [tickRows]

theorem tickRows_succ (B clock : ℕ) (dr : ℕ → Draws) :
    tickRows (B + 1) clock dr =
      tickRows B clock dr ++ [generate_buoy_reading (B + 1) (clock + B) (dr B)] := by
  simp [tickRows, List.range_succ]

theorem tickRows_time_lt (B clock : ℕ) (dr : ℕ → Draws) :
    ∀ r ∈ tickRows B clock dr, r.time < clock + B := by
  intro r hr
  simp only [tickRows, List.mem_map, List.mem_range] at hr
  obtain ⟨i, hi, rfl⟩ := hr
  rw [generate_time]
  omega

theorem doTick_buoy_data (B : ℕ) (dr : ℕ → Draws) (s : SimState) :
    (doTick B dr s).buoy_data = s.buoy_data ++ tickRows B s.clock dr := rfl

theorem doTick_payloads (B : ℕ) (dr : ℕ → Draws) (s : SimState) :
    (doTick B dr s).payloads =
      s.payloads ++ (cloudPayload (s.buoy_data ++ tickRows B s.clock dr)).toList := rfl

theorem doTick_clock_lt (B : ℕ) (dr : ℕ → Draws) (s : SimState)
    (h : ∀ r ∈ s.buoy_data, r.time < s.clock) :
    ∀ r ∈ (doTick B dr s).buoy_data, r.time < (doTick B dr s).clock := by
  intro r hr
  rw [doTick_buoy_data] at hr
  show r.time < s.clock + B
  rcases List.mem_append.mp hr with h1 | h1
  · have := h r h1
    omega
  · exact tickRows_time_lt B s.clock dr r h1

theorem runAux_clock_lt (B : ℕ) (dr : ℕ → ℕ → Draws) (stop : ℕ → Bool) :
    ∀ fuel step s, (∀ r ∈ s.buoy_data, r.time < s.clock) →
      ∀ r ∈ (runAux B dr stop step fuel s).buoy_data,
        r.time < (runAux B dr stop step fuel s).clock := by
  intro fuel
  induction fuel with
  | zero => intro step s h; simpa [runAux] using h
  | succ n ih =>
      intro step s h
      by_cases hs : stop step = true
      · have e1 : runAux B dr stop step (n + 1) s = doTick B (dr step) s := by
          simp [runAux, hs]
        rw [e1]
        exact doTick_clock_lt B (dr step) s h
      · have e1 : runAux B dr stop step (n + 1) s =
            runAux B dr stop (step + 1) n (doTick B (dr step) s) := by
          simp [runAux, hs]
        rw [e1]
        exact ih (step + 1) (doTick B (dr step) s) (doTick_clock_lt B (dr step) s h)

theorem ticksRun_le (stop : ℕ → Bool) : ∀ fuel step, ticksRun stop step fuel ≤ fuel := by
  intro fuel
  induction fuel with
  | zero => intro step; simp [ticksRun]
  | succ n ih =>
      intro step
      unfold ticksRun
      split
      · omega
      · have := ih (step + 1)
        omega

theorem runAux_log_growth (B : ℕ) (dr : ℕ → ℕ → Draws) (stop : ℕ → Bool) :
    ∀ fuel step s,
      (runAux B dr stop step fuel s).buoy_data.length =
        s.buoy_data.length + ticksRun stop step fuel * B ∧
      s.buoy_data <+: (runAux B dr stop step fuel s).buoy_data := by
  intro fuel
  induction fuel with
  | zero => intro step s; simp [runAux, ticksRun]
  | succ n ih =>
      intro step s
      by_cases h : stop step = true
      · have e1 : runAux B dr stop step (n + 1) s = doTick B (dr step) s := by
          simp [runAux, h]
        have e2 : ticksRun stop step (n + 1) = 1 := by
          simp [ticksRun, h]
        rw [e1, e2]
        constructor
        · rw [doTick_buoy_data]
          simp [tickRows_length]
        · rw [doTick_buoy_data]
          exact List.prefix_append _ _
      · have e1 : runAux B dr stop step (n + 1) s =
            runAux B dr stop (step + 1) n (doTick B (dr step) s) := by
          simp [runAux, h]
        have e2 : ticksRun stop step (n + 1) = 1 + ticksRun stop (step + 1) n := by
          simp [ticksRun, h]
        rw [e1, e2]
        obtain ⟨hlen, hpre⟩ := ih (step + 1) (doTick B (dr step) s)
        constructor
        · rw [hlen, doTick_buoy_data]
          simp [tickRows_length]
          ring
        · refine List.IsPrefix.trans ?_ hpre
          rw [doTick_buoy_data]
          exact List.prefix_append _ _

/-- C7: starting from an empty telemetry log, after the loop completes
T ticks with B buoys the log has exactly T * B rows; across any run
segment the old log is a prefix of the new one (append-only, nothing
mutated or removed), so its length is monotonically non-decreasing. -/
theorem telemetry_log_append_only (B : ℕ) (dr : ℕ → ℕ → Draws) (stop : ℕ → Bool)
    (c : ℕ) (p : List CloudMsg) :
    (run_iot_buoy_loop B dr stop ⟨[], c, p⟩).buoy_data.length = ticksRun stop 0 50 * B ∧
    (∀ step fuel s, s.buoy_data <+: (runAux B dr stop step fuel s).buoy_data) ∧
    (∀ step fuel s, s.buoy_data.length ≤ (runAux B dr stop step fuel s).buoy_data.length) := by
  refine ⟨?_, ?_, ?_⟩
  · have h := (runAux_log_growth B dr stop 50 0 ⟨[], c, p⟩).1
    simpa [run_iot_buoy_loop] using h
  · intro step fuel s
    exact (runAux_log_growth B dr stop fuel step s).2
  · intro step fuel s
    rw [(runAux_log_growth B dr stop fuel step s).1]
    omega

/-- C9: the loop executes at most its fixed bound of 50 iterations, and
the stop flag is checked only between iterations: whenever the flag is
observed set after iteration `step`, that iteration has already fully
completed (its tick, including rows and payload emission, is applied)
before the loop exits. -/
theorem loop_bounded_iterations_complete (B : ℕ) (dr : ℕ → ℕ → Draws)
    (stop : ℕ → Bool) (s : SimState) :
    ticksRun stop 0 50 ≤ 50 ∧
    (run_iot_buoy_loop B dr stop s).buoy_data.length ≤ s.buoy_data.length + 50 * B ∧
    (∀ step fuel s', stop step = true →
      runAux B dr stop step (fuel + 1) s' = doTick B (dr step) s') := by
  refine ⟨ticksRun_le stop 50 0, ?_, ?_⟩
  · have h := (runAux_log_growth B dr stop 50 0 s).1
    have h2 := ticksRun_le stop 50 0
    have h3 : ticksRun stop 0 50 * B ≤ 50 * B := Nat.mul_le_mul_right B h2
    rw [run_iot_buoy_loop, h]
    omega
  · intro step fuel s' hstop
    simp [runAux, hstop]

/-- Witness for C9: with a stop flag that is already set, one fueled
step still performs the full tick before stopping. -/
theorem loop_bounded_iterations_complete_witness :
    ticksRun (fun _ => true) 0 50 ≤ 50 ∧
    runAux 1 (fun _ _ => ⟨0, 0, 10, 100, 90, 1, 0⟩) (fun _ => true) 0 (0 + 1) ⟨[], 0, []⟩ =
      doTick 1 ((fun _ _ => (⟨0, 0, 10, 100, 90, 1, 0⟩ : Draws)) 0) ⟨[], 0, []⟩ :=
  ⟨(loop_bounded_iterations_complete 1 (fun _ _ => ⟨0, 0, 10, 100, 90, 1, 0⟩)
      (fun _ => true) ⟨[], 0, []⟩).1,
   (loop_bounded_iterations_complete 1 (fun _ _ => ⟨0, 0, 10, 100, 90, 1, 0⟩)
      (fun _ => true) ⟨[], 0, []⟩).2.2 0 0 ⟨[], 0, []⟩ rfl⟩

/-- C8: on a tick with B + 1 buoys over a log whose timestamps are all
below the current clock, the single emitted cloud payload is built from
the reading generated for buoy B + 1 — the last buoy processed that
tick — and its alert field is true exactly when that reading's whale
probability exceeds 0.7. -/
theorem cloud_payload_from_last_buoy (B : ℕ) (dr : ℕ → Draws) (s : SimState)
    (hclock : ∀ r ∈ s.buoy_data, r.time < s.clock) :
    cloudPayload (doTick (B + 1) dr s).buoy_data =
      some (mkCloudMsg (generate_buoy_reading (B + 1) (s.clock + B) (dr B))) ∧
    (doTick (B + 1) dr s).payloads =
      s.payloads ++ [mkCloudMsg (generate_buoy_reading (B + 1) (s.clock + B) (dr B))] ∧
    (∀ r : Reading, (mkCloudMsg r).alert = true ↔ r.whale_prob > 7/10) := by
  have hsplit : (doTick (B + 1) dr s).buoy_data =
      (s.buoy_data ++ tickRows B s.clock dr) ++
        [generate_buoy_reading (B + 1) (s.clock + B) (dr B)] := by
    rw [doTick_buoy_data, tickRows_succ, List.append_assoc]
  have hmax : ∀ y ∈ s.buoy_data ++ tickRows B s.clock dr,
      y.time < (generate_buoy_reading (B + 1) (s.clock + B) (dr B)).time := by
    intro y hy
    rw [generate_time]
    rcases List.mem_append.mp hy with h | h
    · have := hclock y h
      omega
    · exact tickRows_time_lt B s.clock dr y h
  have hpay : cloudPayload (doTick (B + 1) dr s).buoy_data =
      some (mkCloudMsg (generate_buoy_reading (B + 1) (s.clock + B) (dr B))) := by
    unfold cloudPayload latestPerBuoy
    rw [hsplit, keepLast_getLast?, sortByTime_getLast_strict_max _ _ hmax]
    rfl
  refine ⟨hpay, ?_, ?_⟩
  · rw [doTick_payloads, ← doTick_buoy_data, hpay]
    rfl
  · intro r
    simp [mkCloudMsg]
    norm_num

/-- Witness for C8: one tick with one buoy over the empty log. -/
theorem cloud_payload_from_last_buoy_witness :
    cloudPayload (doTick (0 + 1) (fun _ => ⟨0, 0, 10, 100, 90, 1, 0⟩) ⟨[], 0, []⟩).buoy_data =
      some (mkCloudMsg (generate_buoy_reading (0 + 1) (0 + 0)
        ((fun _ => (⟨0, 0, 10, 100, 90, 1, 0⟩ : Draws)) 0))) :=
  (cloud_payload_from_last_buoy 0 (fun _ => ⟨0, 0, 10, 100, 90, 1, 0⟩) ⟨[], 0, []⟩
    (by simp)).1

/-- C10: pressing Start only sets the running flag and leaves the
telemetry log untouched; session init only resets a missing log key; a
second run started from the first run's accumulated log appends to it,
so the total length is the sum of both runs' appended readings. -/
theorem start_resumes_accumulated_log (s : Session) (l : List Reading)
    (h : s.buoy_data = some l) :
    (pressStart s).buoy_data = some l ∧
    (pressStart s).running = some true ∧
    (initSessionState s).buoy_data = some l ∧
    (∀ B₁ B₂ f₁ f₂ dr₁ dr₂ stop₁ stop₂ c₁ c₂ p₂,
      (runAux B₂ dr₂ stop₂ 0 f₂
          ⟨(runAux B₁ dr₁ stop₁ 0 f₁ ⟨[], c₁, []⟩).buoy_data, c₂, p₂⟩).buoy_data.length =
        ticksRun stop₁ 0 f₁ * B₁ + ticksRun stop₂ 0 f₂ * B₂ ∧
      (runAux B₁ dr₁ stop₁ 0 f₁ ⟨[], c₁, []⟩).buoy_data <+:
        (runAux B₂ dr₂ stop₂ 0 f₂
          ⟨(runAux B₁ dr₁ stop₁ 0 f₁ ⟨[], c₁, []⟩).buoy_data, c₂, p₂⟩).buoy_data) := by
  refine ⟨by simp [pressStart, h], rfl, by simp [initSessionState, h], ?_⟩
  intro B₁ B₂ f₁ f₂ dr₁ dr₂ stop₁ stop₂ c₁ c₂ p₂
  have h1 := (runAux_log_growth B₁ dr₁ stop₁ f₁ 0 ⟨[], c₁, []⟩).1
  have h2 := runAux_log_growth B₂ dr₂ stop₂ f₂ 0
    ⟨(runAux B₁ dr₁ stop₁ 0 f₁ ⟨[], c₁, []⟩).buoy_data, c₂, p₂⟩
  constructor
  · rw [h2.1]
    simp only [List.length_nil, Nat.zero_add] at h1
    rw [h1]
  · exact h2.2

/-- Witness for C10 at a concrete session whose log key is present. -/
theorem start_resumes_accumulated_log_witness :
    (pressStart ⟨some [], some false⟩).buoy_data = some [] ∧
    (pressStart ⟨some [], some false⟩).running = some true ∧
    (initSessionState ⟨some [], some false⟩).buoy_data = some [] := by
  have h := start_resumes_accumulated_log ⟨some [], some false⟩ [] rfl
  exact ⟨h.1, h.2.1, h.2.2.1⟩

end IotBuoy
